import Mathlib

/-!
Verification development for the `mem` repository: a linear ("arena"/"bump") memory
allocator backed by OS virtual memory, plus a growable buffer layered on top.

The repository contains two generations of the allocator:

* the `MemArena *` generation (the single-header library with `memReserve`,
  `memAlloc`, `memFree`, `memResize`, `memAvailable`, `memClear`, `adjustCommited`
  and the block-based `memReallocEx`), modelled in namespace `Mem`;
* the by-value `MemArena` / `Buf(T)` generation (`mem.h` / `buf.h`, with `bufPush`,
  `memBufRealloc`, `memBufInsert`, `memMove`, `ceilPowerOf2` and the pointer-based
  `memReallocEx`), modelled in namespace `BufH`.

Modelling conventions, shared by both namespaces:

* `size_t` values are modelled as `Nat`.  Wherever the C code can only wrap around
  2^64 on inputs that are excluded by the theorems' hypotheses (e.g. blocks that
  do not point into the arena), the definition uses plain `Nat` arithmetic and the
  theorems carry the corresponding hypothesis; truly reachable wraparound (the
  `v - 1` / `v + 1` steps of `ceilPowerOf2`) is modelled with an explicit `% 2^64`.
* pointers are modelled as numeric addresses with `0` playing the role of `NULL`
  (namespace `Mem`), or as `Option` of an offset from the arena base (`BufH`).
* `MEM_ASSERT` / `BUF_ASSERT` are compiled out under `NDEBUG`; the model follows the
  release build and omits them, except where noted (the metadata-page commit in
  `memReserve`, where both the debug assert and the release write to uncommitted
  memory terminate the program; that path is modelled as an explicit trap result).
* arena memory contents are modelled as a total function from byte offsets
  (namespace `Mem`) or 4-byte cells (namespace `BufH`) to values.
-/

/-- `memAlignBackward` from the source (both generations have the identical body):
`addr & ~(alignment - 1)`.  The source asserts that `alignment` is a power of two;
for a power of two the bitmask clears the low bits of the address, which on any
address below 2^64 is exactly subtraction of `addr % alignment`. -/
def memAlignBackward (addr alignment : Nat) : Nat :=
  addr - addr % alignment

/-- `memAlignForward` from the source: round `addr` up to the next (or current)
multiple of `alignment`, computed as `memAlignBackward (addr + (alignment - 1))`.
(For `alignment = 0` the C computation also yields `0`: the `&` with `~SIZE_MAX`
clears every bit, just as `addr - addr % 0 = 0` here.) -/
def memAlignForward (addr alignment : Nat) : Nat :=
  memAlignBackward (addr + (alignment - 1)) alignment

theorem memAlignBackward_eq_mul_div (z a : Nat) :
    memAlignBackward z a = a * (z / a) := by
  have h := Nat.div_add_mod z a
  unfold memAlignBackward
  omega

theorem memAlignForward_ge (x : Nat) {a : Nat} (ha : 0 < a) :
    x ≤ memAlignForward x a := by
  unfold memAlignForward memAlignBackward
  have h : (x + (a - 1)) % a < a := Nat.mod_lt _ ha
  omega

theorem memAlignForward_mono {x y : Nat} (a : Nat) (h : x ≤ y) :
    memAlignForward x a ≤ memAlignForward y a := by
  unfold memAlignForward
  rw [memAlignBackward_eq_mul_div, memAlignBackward_eq_mul_div]
  exact Nat.mul_le_mul_left a (Nat.div_le_div_right (by omega))

theorem dvd_memAlignForward (x a : Nat) : a ∣ memAlignForward x a := by
  unfold memAlignForward
  rw [memAlignBackward_eq_mul_div]
  exact Dvd.intro _ rfl

theorem memAlignForward_lt (x : Nat) {a : Nat} (ha : 0 < a) :
    memAlignForward x a < x + a := by
  unfold memAlignForward memAlignBackward
  omega

theorem memAlignForward_of_dvd {x a : Nat} (ha : 0 < a) (h : a ∣ x) :
    memAlignForward x a = x := by
  unfold memAlignForward memAlignBackward
  rcases h with ⟨c, rfl⟩
  have h1 : (a * c + (a - 1)) % a = a - 1 := by
    rw [Nat.add_mod, Nat.mul_mod_right]
    simp [Nat.mod_eq_of_lt (show a - 1 < a by omega)]
  omega

namespace Mem

/-- `MEM_PAGE_SIZE` from the source. -/
def PAGE : Nat := 4096

/-- `MemBlock`: a `{pointer, length}` pair.  `ptr = 0` models a `NULL` pointer. -/
structure MemBlock where
  ptr : Nat
  len : Nat
  deriving DecidableEq

/-- `struct MemArena { uint8_t *ptr; size_t len, cap, commit; uint32_t flags; }`.

`base` is the numeric address stored in `mem->ptr` (start of the usable range,
one page past the reservation), `noDecommit` is the `MEM_FLAG_UNSAFE` bit of
`flags`, and `data i` is the byte at offset `i` from `base`. -/
structure MemArena where
  base : Nat
  len : Nat
  cap : Nat
  commit : Nat
  noDecommit : Bool
  data : Nat → Nat

/-- Overwrite the byte range `[lo, lo + n)` (offsets from the arena base) with
zeros; used to model `MEM_ZERO` and the OS zero-filling freshly committed pages. -/
def zeroRange (d : Nat → Nat) (lo n : Nat) : Nat → Nat :=
  fun i => if lo ≤ i ∧ i < lo + n then 0 else d i

/-- `adjustCommited` from the source: recompute the committed boundary as
`memAlignForward len PAGE`.  On shrink (unless `MEM_FLAG_UNSAFE` is set, which
pins the target to the current commit) the excess is decommitted and the range
`[len, min_commit)` is explicitly zeroed; on growth the fresh pages are committed
and arrive zero-filled from the OS (modelled by zeroing `[commit, min_commit)`).
When the target equals the current commit, nothing is written. -/
def adjustCommited (m : MemArena) : MemArena :=
  let min0 := memAlignForward m.len PAGE
  if min0 < m.commit then
    let minc := if m.noDecommit then m.commit else min0
    { m with commit := minc, data := zeroRange m.data m.len (minc - m.len) }
  else if min0 > m.commit then
    { m with commit := min0, data := zeroRange m.data m.commit (min0 - m.commit) }
  else
    { m with commit := min0 }

/-- `lastAlloc` from the source: a block authorizes free/resize iff its pointer is
non-null and its end address coincides with the arena's end of allocations.
(The C also early-outs when the `MemBlock *` out-parameter itself is `NULL`;
blocks are passed by value here, so only the null-pointer check remains.) -/
def lastAlloc (m : MemArena) (b : MemBlock) : Bool :=
  b.ptr != 0 && (m.base + m.len == b.ptr + b.len)

/-- `memAvailable` from the source: `cap - len`. -/
def memAvailable (m : MemArena) : Nat :=
  m.cap - m.len

/-- `memAlloc` from the source.  The candidate pointer is the end-of-arena address
rounded up to the alignment; the allocation fails (null block, arena untouched)
when the length is zero or the new end would exceed the capacity. -/
def memAlloc (m : MemArena) (len alignment : Nat) : MemArena × MemBlock :=
  let bptr := memAlignForward (m.base + m.len) alignment
  let next_len := len + (bptr - m.base)
  if next_len > m.cap ∨ len = 0 then (m, { ptr := 0, len := 0 })
  else (adjustCommited { m with len := next_len }, { ptr := bptr, len := len })

/-- `memFree` from the source: succeeds only on the last allocation, in which case
the length is retracted, commitment is adjusted, and the block out-parameter is
nulled; otherwise everything is left unchanged. -/
def memFree (m : MemArena) (b : MemBlock) : Bool × MemArena × MemBlock :=
  if lastAlloc m b then
    (true, adjustCommited { m with len := m.len - b.len }, { ptr := 0, len := 0 })
  else
    (false, m, b)

/-- `memResize` from the source: succeeds only on the last allocation; shrinking
always succeeds, growth succeeds iff the extra bytes fit in `memAvailable`; a
resize to zero nulls the block's pointer. -/
def memResize (m : MemArena) (b : MemBlock) (new_len : Nat) : Bool × MemArena × MemBlock :=
  if lastAlloc m b then
    if new_len < b.len then
      (true, adjustCommited { m with len := m.len - (b.len - new_len) },
        { ptr := if new_len = 0 then 0 else b.ptr, len := new_len })
    else
      let request := new_len - b.len
      if request > memAvailable m then (false, m, b)
      else
        (true, adjustCommited { m with len := m.len + request },
          { ptr := if new_len = 0 then 0 else b.ptr, len := new_len })
  else
    (false, m, b)

/-- `memClear` from the source: reset `len` to 0 and re-adjust commitment. -/
def memClear (m : MemArena) : MemArena :=
  adjustCommited { m with len := 0 }

/-- `memReallocEx` from the source (block-based generation): try an in-place
resize; on failure, best-effort free the old block and allocate a fresh one.
The byte sizes are the item counts times the item size, reduced mod 2^64 as in
the C `size_t` multiplication. -/
def memReallocEx (m : MemArena) (item_size item_align old_ptr old_count new_count : Nat) :
    MemArena × Nat :=
  let block : MemBlock := { ptr := old_ptr, len := old_count * item_size % 2 ^ 64 }
  let new_len := new_count * item_size % 2 ^ 64
  match memResize m block new_len with
  | (true, m1, b1) => (m1, b1.ptr)
  | (false, _, _) =>
    let r1 := memFree m block
    let r2 := memAlloc r1.2.1 new_len item_align
    (r2.1, r2.2.ptr)

/-- A caller writing one byte it owns (an offset inside `[0, len)`, i.e. inside
some handed-out block): the only way arena memory changes between API calls. -/
def poke (m : MemArena) (off val : Nat) : MemArena :=
  if off < m.len then
    { m with data := fun i => if i = off then val else m.data i }
  else m

/-- `MemArenaInfo` / `MemReserveOptions` from the source.  `noDecommit` is the
`unsafe` field (that C identifier is not usable here). -/
structure MemArenaInfo where
  total_size : Nat
  available_size : Nat
  noDecommit : Bool

/-- Result of `memReserve`.  `null` is the `NULL` return (the OS reservation
failed); `trap` models the paths with no defined non-crashing continuation:
either a `MEM_ASSERT` fires (debug build), or — for the metadata-page commit —
the release build writes the arena struct into uncommitted memory and faults. -/
inductive ReserveResult where
  | ok (m : MemArena)
  | null
  | trap

/-- `memReserve` from the source.  `osBase` is the result of the
`VirtualAlloc(..., MEM_RESERVE, ...)` call (`none` = reservation failure) and
`osCommitOk` tells whether committing the metadata page succeeds.  Exactly one of
the two sizes may be zero (both zero trips a `MEM_ASSERT`); the usable range
starts one page past the reservation and the fresh arena has `len = commit = 0`. -/
def memReserve (info : MemArenaInfo) (osBase : Option Nat) (osCommitOk : Bool) :
    ReserveResult :=
  if info.total_size = 0 ∧ info.available_size = 0 then ReserveResult.trap
  else
    let total := if info.total_size = 0 then info.available_size + PAGE else info.total_size
    let avail := if info.available_size = 0 then total - PAGE else info.available_size
    match osBase with
    | none => ReserveResult.null
    | some b =>
      if osCommitOk then
        ReserveResult.ok
          { base := b + PAGE, len := 0, cap := avail, commit := 0,
            noDecommit := info.noDecommit, data := fun _ => 0 }
      else ReserveResult.trap

/-- The operations a caller can perform on a reserved arena.  Alignments are
constrained to powers of two by construction (`2 ^ k`), mirroring the
power-of-two assertion in `memAlignBackward`. -/
inductive Op where
  | alloc (len k : Nat)
  | free (b : MemBlock)
  | resize (b : MemBlock) (new_len : Nat)
  | clear
  | realloc (item_size ik old_ptr old_count new_count : Nat)
  | poke (off val : Nat)

/-- One step of the arena state machine (the arena component of each call). -/
def step (m : MemArena) (op : Op) : MemArena :=
  match op with
  | Op.alloc len k => (memAlloc m len (2 ^ k)).1
  | Op.free b => (memFree m b).2.1
  | Op.resize b n => (memResize m b n).2.1
  | Op.clear => memClear m
  | Op.realloc s ik optr oc nc => (memReallocEx m s (2 ^ ik) optr oc nc).1
  | Op.poke off v => poke m off v

/-- Blocks handed to free/resize/realloc must be null or point into the arena
(at or past its base).  For such blocks the C `size_t` subtractions in
`memFree`/`memResize` cannot wrap, so the `Nat` model agrees with the code. -/
def OpOk (B : Nat) : Op → Prop
  | Op.free b => b.ptr = 0 ∨ B ≤ b.ptr
  | Op.resize b _ => b.ptr = 0 ∨ B ≤ b.ptr
  | Op.realloc _ _ optr _ _ => optr = 0 ∨ B ≤ optr
  | _ => True

/-- The state bounds maintained by every operation: the in-use length never
exceeds the capacity, and the committed boundary covers the page-rounded length
while never exceeding the page-rounded capacity. -/
def Bounds (m : MemArena) : Prop :=
  m.len ≤ m.cap ∧ memAlignForward m.len PAGE ≤ m.commit ∧
    m.commit ≤ memAlignForward m.cap PAGE

end Mem

namespace BufH

/-!
The `mem.h` / `buf.h` generation: a by-value `MemArena { uint8_t *ptr; size_t len,
cap; size_t commit; }` and the generic growable buffer `Buf(T) { T *ptr; size_t
len; size_t cap; }` with `bufPush` / `memBufRealloc` / `memBufInsert`.

Pointers into the arena are modelled as byte offsets from `mem->ptr` wrapped in
`Option` (`none` = `NULL`).  The repository instantiates `Buf` at 32-bit items
(`Buf(int32_t)` / `uint32_t` in its tests), so arena memory is modelled at that
granularity: `data c` is the 32-bit cell at byte offset `4 * c`, and every access
the buffer code performs is 4-byte aligned (item alignment is
`ceilPowerOf2 4 = 4`).  `memCommit` only does bookkeeping of the committed
boundary: no claim about this generation depends on memory the program has not
explicitly written, so the model leaves `data` unchanged on commit.
-/

/-- `PAGE_SIZE` from `mem.h`/`buf.h`. -/
def PAGE_SIZE : Nat := 4096

/-- `MEM_ALIGN_MAX` / `BUF_MAX_ALIGNMENT` from the source. -/
def MEM_ALIGN_MAX : Nat := 16

/-- The arena of the `mem.h`/`buf.h` generation: `len`, `cap`, `commit` in bytes
(offsets from `mem->ptr`), `data` the 32-bit cell contents (cell `c` lives at
byte offset `4 * c`). -/
structure Arena where
  len : Nat
  cap : Nat
  commit : Nat
  data : Nat → Nat

/-- The generic buffer `Buf(T)`: backing pointer (byte offset into the arena, or
`none` for `NULL`), element count `len`, capacity `cap` in elements. -/
structure Buf where
  ptr : Option Nat
  len : Nat
  cap : Nat
  deriving DecidableEq

/-- `ceilPowerOf2_64` from the source: the decrement/or-shift-cascade/increment
computation of the smallest power of two that is `>= v`, on a 64-bit unsigned
integer (the wrapping `v - 1` and `v + 1` steps carry an explicit `% 2 ^ 64`). -/
def ceilPowerOf2 (v0 : Nat) : Nat :=
  let v := (v0 + (2 ^ 64 - 1)) % 2 ^ 64
  let v := v ||| (v >>> 1)
  let v := v ||| (v >>> 2)
  let v := v ||| (v >>> 4)
  let v := v ||| (v >>> 8)
  let v := v ||| (v >>> 16)
  let v := v ||| (v >>> 32)
  (v + 1) % 2 ^ 64

/-- `isLastAlloc` from the source: a non-null allocation whose end offset equals
the arena's current length. -/
def isLastAlloc (m : Arena) (p : Option Nat) (size : Nat) : Bool :=
  match p with
  | none => false
  | some off => m.len == off + size

/-- `memCommit` from the source: grow the committed boundary to the page-rounded
length (the `VirtualAlloc` commit call is assumed to succeed; on failure the C
code silently leaves `commit` unchanged, which no claim here exercises). -/
def memCommit (m : Arena) : Arena :=
  let next := memAlignForward m.len PAGE_SIZE
  if next > m.commit then { m with commit := next } else m

/-- `memDecommitExcess` from the source: shrink the committed boundary to the
page-rounded length. -/
def memDecommitExcess (m : Arena) : Arena :=
  let minc := memAlignForward m.len PAGE_SIZE
  if minc < m.commit then { m with commit := minc } else m

/-- `memClear` from the source (this generation): just reset the length. -/
def memClear (m : Arena) : Arena :=
  { m with len := 0 }

/-- `memReallocEx` from `mem.h`/`buf.h` (pointer-based generation).  The last
allocation is shrunk or grown in place; otherwise a fresh block is carved at the
aligned end of the arena and, when the old pointer is non-null, `memcpy` copies
`new_size` bytes (= `new_size / 4` cells) from it — note the source copies
`new_size`, not `old_size`, bytes.  Failure returns `none` and leaves the arena
untouched. -/
def memReallocEx (m : Arena) (old_ptr : Option Nat) (old_size new_size alignment : Nat) :
    Arena × Option Nat :=
  if isLastAlloc m old_ptr old_size then
    if new_size ≤ old_size then
      ({ m with len := m.len - (old_size - new_size) }, old_ptr)
    else if new_size - old_size ≤ m.cap - m.len then
      (memCommit { m with len := m.len + (new_size - old_size) }, old_ptr)
    else
      (m, none)
  else
    let offset := memAlignForward m.len alignment
    if offset ≤ m.cap ∧ new_size ≤ m.cap - offset then
      let m1 := memCommit { m with len := offset + new_size }
      let m2 :=
        match old_ptr with
        | some oldOff =>
          { m1 with data := fun c =>
              if offset / 4 ≤ c ∧ c < offset / 4 + new_size / 4 then
                m1.data (oldOff / 4 + (c - offset / 4))
              else m1.data c }
        | none => m1
      (m2, some offset)
    else
      (m, none)

/-- `memBufRealloc` from `mem.h` (identical to `bufRealloc` in `buf.h`): no-op
when the current capacity covers the request; otherwise grow to the smallest
power of two that covers it, at an item alignment deduced from the item size
(items are 4 bytes here, so the alignment is `ceilPowerOf2 4`).  On reallocation
failure the buffer and arena are left unchanged.  (The C `mem == NULL` early-out
is not modelled: the arena is always present.) -/
def memBufRealloc (b : Buf) (req_cap : Nat) (m : Arena) : Bool × Buf × Arena :=
  if req_cap ≤ b.cap then (true, b, m)
  else
    let new_capacity := ceilPowerOf2 req_cap
    let item_align := if 4 > MEM_ALIGN_MAX then MEM_ALIGN_MAX else ceilPowerOf2 4
    match memReallocEx m b.ptr (b.cap * 4) (new_capacity * 4) item_align with
    | (m1, some off) => (true, { ptr := some off, len := b.len, cap := new_capacity }, m1)
    | (_, none) => (false, b, m)

/-- Write one 32-bit cell of the arena. -/
def writeCell (m : Arena) (c v : Nat) : Arena :=
  { m with data := fun i => if i = c then v else m.data i }

/-- `memMove` from the source (`memmove` semantics), at cell granularity: cells
`[toC, toC + count)` receive the old contents of `[fromC, fromC + count)`. -/
def memMove (m : Arena) (fromC toC count : Nat) : Arena :=
  { m with data := fun i =>
      if toC ≤ i ∧ i < toC + count then m.data (fromC + (i - toC)) else m.data i }

/-- `bufPush` from `buf.h`: reserve capacity for one more element
(`bufReserveCap(buf, 1, mem)` = ensure `len + 1`), then store the item at index
`len` and increment `len`.  (The write through a `NULL` pointer in the degenerate
`none` branch is unreachable for well-formed buffers: a successful reserve of
`len + 1 ≥ 1` elements always yields a non-null pointer.) -/
def bufPush (b : Buf) (item : Nat) (m : Arena) : Bool × Buf × Arena :=
  match memBufRealloc b (b.len + 1) m with
  | (true, b1, m1) =>
    match b1.ptr with
    | some off => (true, { b1 with len := b1.len + 1 }, writeCell m1 (off / 4 + b1.len) item)
    | none => (true, { b1 with len := b1.len + 1 }, m1)
  | (false, b1, m1) => (false, b1, m1)

/-- One `bufPush` step of a push loop, carrying a success flag accumulated with
`&&` (mirroring a test loop that asserts every push). -/
def pushStep (acc : Bool × Buf × Arena) (x : Nat) : Bool × Buf × Arena :=
  let r := bufPush acc.2.1 x acc.2.2
  (acc.1 && r.1, r.2.1, r.2.2)

/-- Push a whole list of items in order. -/
def pushAll (b : Buf) (xs : List Nat) (m : Arena) : Bool × Buf × Arena :=
  xs.foldl pushStep (true, b, m)

/-- `memBufInsert` from `mem.h`: valid for positions `k ≤ len`; reserves one
extra slot, then moves `++len - 1 + k` elements (sic — the source adds `k`
instead of subtracting it) from position `k` to `k + 1` and stores the item at
`k`.  Out-of-range positions fail before reserving, leaving everything
unchanged. -/
def memBufInsert (b : Buf) (item k : Nat) (m : Arena) : Bool × Buf × Arena :=
  if k ≤ b.len then
    match memBufRealloc b (b.len + 1) m with
    | (true, b1, m1) =>
      let b2 := { b1 with len := b1.len + 1 }
      let count := b2.len - 1 + k
      match b2.ptr with
      | some off =>
        (true, b2, writeCell (memMove m1 (off / 4 + k) (off / 4 + k + 1) count) (off / 4 + k) item)
      | none => (true, b2, m1)
    | (false, b1, m1) => (false, b1, m1)
  else
    (false, b, m)

end BufH

namespace Mem

theorem adjustCommited_len (m : MemArena) : (adjustCommited m).len = m.len := by
  simp only [adjustCommited]
  split_ifs <;> rfl

theorem adjustCommited_cap (m : MemArena) : (adjustCommited m).cap = m.cap := by
  simp only [adjustCommited]
  split_ifs <;> rfl

theorem adjustCommited_base (m : MemArena) : (adjustCommited m).base = m.base := by
  simp only [adjustCommited]
  split_ifs <;> rfl

theorem PAGE_pos : 0 < PAGE := by decide

/-- After `adjustCommited`, the committed boundary covers the page-rounded length
and stays below the page-rounded capacity. -/
theorem adjustCommited_bounds (m : MemArena) (h1 : m.len ≤ m.cap)
    (h2 : m.commit ≤ memAlignForward m.cap PAGE) :
    memAlignForward m.len PAGE ≤ (adjustCommited m).commit ∧
      (adjustCommited m).commit ≤ memAlignForward m.cap PAGE := by
  have hmono := memAlignForward_mono (x := m.len) (y := m.cap) PAGE h1
  simp only [adjustCommited]
  split_ifs <;> constructor <;> simp <;> omega

theorem lastAlloc_eq_true_iff (m : MemArena) (b : MemBlock) :
    lastAlloc m b = true ↔ b.ptr ≠ 0 ∧ m.base + m.len = b.ptr + b.len := by
  simp [lastAlloc]

/-- `memAlloc` preserves the bounds, for any length and any alignment. -/
theorem memAlloc_bounds (m : MemArena) (len a : Nat) (h : Bounds m) :
    Bounds (memAlloc m len a).1 := by
  obtain ⟨h1, h2, h3⟩ := h
  simp only [memAlloc]
  split_ifs with hc
  · exact ⟨h1, h2, h3⟩
  · push_neg at hc
    have hb := adjustCommited_bounds
      { m with len := len + (memAlignForward (m.base + m.len) a - m.base) }
      (by simpa using hc.1) (by simpa using h3)
    refine ⟨?_, ?_, ?_⟩
    · rw [adjustCommited_len, adjustCommited_cap]
      simpa using hc.1
    · rw [adjustCommited_len]
      simpa using hb.1
    · rw [adjustCommited_cap]
      simpa using hb.2

theorem memFree_bounds (m : MemArena) (b : MemBlock) (h : Bounds m) :
    Bounds (memFree m b).2.1 := by
  obtain ⟨h1, h2, h3⟩ := h
  simp only [memFree]
  split_ifs with hl
  · have hb := adjustCommited_bounds { m with len := m.len - b.len }
      (by simp only []; omega) (by simpa using h3)
    refine ⟨?_, ?_, ?_⟩
    · rw [adjustCommited_len, adjustCommited_cap]
      simp only []
      omega
    · rw [adjustCommited_len]
      simpa using hb.1
    · rw [adjustCommited_cap]
      simpa using hb.2
  · exact ⟨h1, h2, h3⟩

/-- Auxiliary: setting the length to any value below the capacity and then
adjusting commitment restores the bounds. -/
theorem adjust_set_len_bounds (m : MemArena) (L : Nat) (hL : L ≤ m.cap)
    (h3 : m.commit ≤ memAlignForward m.cap PAGE) :
    Bounds (adjustCommited { m with len := L }) := by
  have hb := adjustCommited_bounds { m with len := L } hL h3
  refine ⟨?_, ?_, ?_⟩
  · rw [adjustCommited_len, adjustCommited_cap]
    exact hL
  · rw [adjustCommited_len]
    exact hb.1
  · rw [adjustCommited_cap]
    exact hb.2

theorem memResize_bounds (m : MemArena) (b : MemBlock) (n : Nat) (h : Bounds m) :
    Bounds (memResize m b n).2.1 := by
  obtain ⟨h1, h2, h3⟩ := h
  simp only [memResize, memAvailable]
  split_ifs
  all_goals first
    | exact ⟨h1, h2, h3⟩
    | exact adjust_set_len_bounds m _ (by omega) h3

theorem memClear_bounds (m : MemArena) (h : Bounds m) : Bounds (memClear m) := by
  obtain ⟨h1, h2, h3⟩ := h
  have hb := adjustCommited_bounds { m with len := 0 }
    (by simp) (by simpa using h3)
  simp only [memClear]
  refine ⟨?_, ?_, ?_⟩
  · rw [adjustCommited_len, adjustCommited_cap]
    simp
  · rw [adjustCommited_len]
    simpa using hb.1
  · rw [adjustCommited_cap]
    simpa using hb.2

theorem memReallocEx_bounds (m : MemArena) (s a optr oc nc : Nat) (h : Bounds m) :
    Bounds (memReallocEx m s a optr oc nc).1 := by
  simp only [memReallocEx]
  rcases hres : memResize m { ptr := optr, len := oc * s % 2 ^ 64 } (nc * s % 2 ^ 64)
    with ⟨ok, m1, b1⟩
  have hm1 : Bounds m1 := by
    have hgoal := memResize_bounds m { ptr := optr, len := oc * s % 2 ^ 64 }
      (nc * s % 2 ^ 64) h
    rw [hres] at hgoal
    exact hgoal
  cases ok
  · simp only []
    exact memAlloc_bounds _ _ _ (memFree_bounds _ _ h)
  · simp only [hres]
    exact hm1

theorem poke_bounds (m : MemArena) (off v : Nat) (h : Bounds m) :
    Bounds (poke m off v) := by
  obtain ⟨h1, h2, h3⟩ := h
  simp only [poke]
  split_ifs
  · exact ⟨h1, h2, h3⟩
  · exact ⟨h1, h2, h3⟩

/-- Every operation preserves the bounds. -/
theorem step_bounds (m : MemArena) (op : Op) (h : Bounds m) : Bounds (step m op) := by
  cases op with
  | alloc len k => exact memAlloc_bounds m len (2 ^ k) h
  | free b => exact memFree_bounds m b h
  | resize b n => exact memResize_bounds m b n h
  | clear => exact memClear_bounds m h
  | realloc s ik optr oc nc => exact memReallocEx_bounds m s (2 ^ ik) optr oc nc h
  | poke off v => exact poke_bounds m off v h

theorem foldl_step_bounds (ops : List Op) (m : MemArena) (h : Bounds m) :
    Bounds (ops.foldl step m) := by
  induction ops generalizing m with
  | nil => exact h
  | cons op ops ih => exact ih _ (step_bounds m op h)

/-- A successful `memReserve` yields an arena with `len = commit = 0`. -/
theorem memReserve_ok_fields (info : MemArenaInfo) (osb : Option Nat) (cok : Bool)
    (m0 : MemArena) (h : memReserve info osb cok = ReserveResult.ok m0) :
    m0.len = 0 ∧ m0.commit = 0 := by
  cases osb with
  | none =>
    simp only [memReserve] at h
    split_ifs at h
  | some b =>
    simp only [memReserve] at h
    split_ifs at h
    all_goals first
      | exact ReserveResult.noConfusion h
      | (injection h with h1; subst h1; exact ⟨rfl, rfl⟩)

/-- A freshly reserved arena satisfies the bounds. -/
theorem memReserve_bounds (info : MemArenaInfo) (osb : Option Nat) (cok : Bool)
    (m0 : MemArena) (h : memReserve info osb cok = ReserveResult.ok m0) : Bounds m0 := by
  obtain ⟨hl, hc⟩ := memReserve_ok_fields info osb cok m0 h
  refine ⟨?_, ?_, ?_⟩
  · rw [hl]
    exact Nat.zero_le _
  · rw [hl, hc]
    decide
  · rw [hc]
    exact Nat.zero_le _

end Mem

namespace Mem

/-- A sample well-formed arena state used by the witnesses: 10 bytes in use out
of 100, one page committed, with block `sampleBlock` as its last allocation. -/
def sampleArena : MemArena :=
  { base := 4096, len := 10, cap := 100, commit := 4096,
    noDecommit := false, data := fun _ => 0 }

/-- The last allocation of `sampleArena`: 6 bytes ending at `base + len`. -/
def sampleBlock : MemBlock :=
  { ptr := 4100, len := 6 }

/-- C1 (amended): for every arena obtained from a valid reservation and every
sequence of operations (Allocate, Free, Resize, Clear, the generic reallocation
helper, and caller writes into handed-out memory) whose block arguments are null
or point into the arena, after every operation `0 ≤ length ≤ committed` and
`length ≤ capacity` and `committed ≤ capacity rounded up to the page size` hold.
The original bound `committed ≤ capacity` fails when the available size is not a
multiple of the page granularity (see the counterexample), because the committed
boundary is the page-rounded length. -/
theorem arena_bounds_after_ops (info : MemArenaInfo) (osb : Option Nat) (cok : Bool)
    (m0 : MemArena) (hres : memReserve info osb cok = ReserveResult.ok m0)
    (ops : List Op) (_hops : ∀ op ∈ ops, OpOk m0.base op) :
    (ops.foldl step m0).len ≤ (ops.foldl step m0).commit ∧
      (ops.foldl step m0).len ≤ (ops.foldl step m0).cap ∧
      (ops.foldl step m0).commit ≤ memAlignForward (ops.foldl step m0).cap PAGE := by
  obtain ⟨h1, h2, h3⟩ := foldl_step_bounds ops m0 (memReserve_bounds info osb cok m0 hres)
  refine ⟨?_, h1, h3⟩
  calc (ops.foldl step m0).len
      ≤ memAlignForward (ops.foldl step m0).len PAGE := memAlignForward_ge _ PAGE_pos
    _ ≤ (ops.foldl step m0).commit := h2

/-- C1 (counterexample): reserving with an available size of 100 bytes (not a
page multiple) and allocating those 100 bytes leaves `committed = 4096 >
capacity = 100`, refuting `length ≤ committed ≤ capacity` as stated. -/
theorem commit_exceeds_cap_cex :
    (memReserve { total_size := 0, available_size := 100, noDecommit := false }
        (some 65536) true =
      ReserveResult.ok
        { base := 69632, len := 0, cap := 100, commit := 0,
          noDecommit := false, data := fun _ => 0 }) ∧
      (step
          { base := 69632, len := 0, cap := 100, commit := 0,
            noDecommit := false, data := fun _ => 0 } (Op.alloc 100 0)).cap <
        (step
          { base := 69632, len := 0, cap := 100, commit := 0,
            noDecommit := false, data := fun _ => 0 } (Op.alloc 100 0)).commit := by
  constructor
  · rfl
  · decide

/-- C1 (witness): the amended theorem applied to a concrete page-sized
reservation and a concrete operation sequence. -/
theorem arena_bounds_after_ops_witness :
    ([Op.alloc 8 0, Op.free { ptr := 69632, len := 8 }, Op.clear].foldl step
        { base := 69632, len := 0, cap := 4096, commit := 0,
          noDecommit := false, data := fun _ => 0 }).len ≤
      ([Op.alloc 8 0, Op.free { ptr := 69632, len := 8 }, Op.clear].foldl step
        { base := 69632, len := 0, cap := 4096, commit := 0,
          noDecommit := false, data := fun _ => 0 }).cap :=
  (arena_bounds_after_ops
    { total_size := 0, available_size := 4096, noDecommit := false } (some 65536) true
    { base := 69632, len := 0, cap := 4096, commit := 0,
      noDecommit := false, data := fun _ => 0 } rfl
    [Op.alloc 8 0, Op.free { ptr := 69632, len := 8 }, Op.clear]
    (by
      intro op hop
      fin_cases hop
      · exact trivial
      · exact Or.inr (by decide)
      · exact trivial)).2.1

/-- C2 (code bug): freeing a block whose release does not lower the page-rounded
commitment target leaves its bytes stale, and the next allocation hands them
out.  Concretely: reserve 16384 available bytes; allocate 4196 bytes, then 100
bytes (block B at offset 4196, commitment stays at 8192); the caller writes 1
into B's first byte; free B (`adjustCommited` sees `min_commit = commit = 8192`
and zeroes nothing); allocate 100 bytes again.  The returned block sits at the
same offset and its first byte reads 1, not 0 — the code's own
`MEM_ASSERT(block.ptr[0] == 0)` fires on this trace, and the claimed
zero-at-hand-out property fails. -/
theorem alloc_hands_out_stale_byte :
    (memReserve { total_size := 0, available_size := 16384, noDecommit := false }
        (some 65536) true =
      ReserveResult.ok
        { base := 69632, len := 0, cap := 16384, commit := 0,
          noDecommit := false, data := fun _ => 0 }) ∧
      (let m0 : MemArena :=
        { base := 69632, len := 0, cap := 16384, commit := 0,
          noDecommit := false, data := fun _ => 0 }
      let m1 := (memAlloc m0 4196 1).1
      let r2 := memAlloc m1 100 1
      let m3 := poke r2.1 (r2.2.ptr - m0.base) 1
      let m4 := (memFree m3 r2.2).2.1
      let r5 := memAlloc m4 100 1
      r5.2.ptr ≠ 0 ∧ r5.2.len = 100 ∧ r5.1.data (r5.2.ptr - m0.base) = 1) := by
  constructor
  · rfl
  · decide

/-- C3: `memFree` succeeds iff the block is the most recent live allocation (a
non-null block whose end address equals the arena's end of allocations); on
success the length is retracted by the block's size and the block out-parameter
is nulled; on failure the arena and the block are left unchanged.  The
hypothesis restricts attention to blocks that are null or point into the arena
(for others the C `size_t` subtraction could wrap). -/
theorem memFree_spec (m : MemArena) (b : MemBlock)
    (hb : b.ptr = 0 ∨ m.base ≤ b.ptr) :
    ((memFree m b).1 = true ↔ b.ptr ≠ 0 ∧ b.ptr + b.len = m.base + m.len) ∧
      ((memFree m b).1 = true →
        (memFree m b).2.1.len + b.len = m.len ∧
          (memFree m b).2.2 = { ptr := 0, len := 0 }) ∧
      ((memFree m b).1 = false → (memFree m b).2.1 = m ∧ (memFree m b).2.2 = b) := by
  by_cases hl : lastAlloc m b = true
  · obtain ⟨hp, he⟩ := (lastAlloc_eq_true_iff m b).1 hl
    have hlen : b.len ≤ m.len := by
      rcases hb with h0 | hge
      · exact absurd h0 hp
      · omega
    simp only [memFree]
    rw [if_pos hl]
    refine ⟨⟨fun _ => ⟨hp, by omega⟩, fun _ => rfl⟩, fun _ => ⟨?_, rfl⟩,
      fun hc => by simp at hc⟩
    rw [adjustCommited_len]
    show m.len - b.len + b.len = m.len
    omega
  · simp only [memFree]
    rw [if_neg hl]
    refine ⟨⟨fun hc => by simp at hc, fun hpe => ?_⟩, fun hc => by simp at hc,
      fun _ => ⟨rfl, rfl⟩⟩
    exact absurd ((lastAlloc_eq_true_iff m b).2 ⟨hpe.1, hpe.2.symm⟩) hl

/-- C3 (witness): freeing the last allocation of the sample arena retracts the
length by the block's size and nulls the block. -/
theorem memFree_spec_witness :
    (memFree sampleArena sampleBlock).2.1.len + sampleBlock.len = sampleArena.len ∧
      (memFree sampleArena sampleBlock).2.2 = { ptr := 0, len := 0 } :=
  (memFree_spec sampleArena sampleBlock (Or.inr (by decide))).2.1 (by decide)

/-- C4: resizing the last allocation: shrinking (`new_len < block.len`) always
succeeds and `memAvailable` grows by exactly the shrink amount; growing
(`block.len ≤ new_len`) succeeds iff the growth amount is at most
`memAvailable`.  The block points into the arena and the arena satisfies
`len ≤ cap` (both hold for every reachable state and genuine block). -/
theorem memResize_spec (m : MemArena) (b : MemBlock) (n : Nat)
    (hl : lastAlloc m b = true) (hb : m.base ≤ b.ptr) (hcap : m.len ≤ m.cap) :
    (n < b.len → (memResize m b n).1 = true ∧
        memAvailable (memResize m b n).2.1 = memAvailable m + (b.len - n)) ∧
      (b.len ≤ n → ((memResize m b n).1 = true ↔ n - b.len ≤ memAvailable m)) := by
  obtain ⟨hp, he⟩ := (lastAlloc_eq_true_iff m b).1 hl
  have hlen : b.len ≤ m.len := by omega
  constructor
  · intro hlt
    simp only [memResize]
    rw [if_pos hl, if_pos hlt]
    refine ⟨rfl, ?_⟩
    show (adjustCommited { m with len := m.len - (b.len - n) }).cap -
        (adjustCommited { m with len := m.len - (b.len - n) }).len =
      m.cap - m.len + (b.len - n)
    rw [adjustCommited_cap, adjustCommited_len]
    show m.cap - (m.len - (b.len - n)) = m.cap - m.len + (b.len - n)
    omega
  · intro hge
    have hnlt : ¬ n < b.len := by omega
    simp only [memResize]
    rw [if_pos hl, if_neg hnlt]
    by_cases hreq : n - b.len > memAvailable m
    · rw [if_pos hreq]
      simp only [memAvailable] at hreq
      exact ⟨fun hc => by simp at hc, fun hle => by simp only [memAvailable] at hle; omega⟩
    · rw [if_neg hreq]
      simp only [memAvailable] at hreq
      exact ⟨fun _ => by simp only [memAvailable]; omega, fun _ => rfl⟩

/-- C4 (witness): shrinking the sample arena's last allocation from 6 to 2 bytes
succeeds. -/
theorem memResize_spec_witness :
    (memResize sampleArena sampleBlock 2).1 = true :=
  ((memResize_spec sampleArena sampleBlock 2 (by decide) (by decide) (by decide)).1
    (by decide)).1

/-- C5: allocating zero bytes always fails with a null block and an unchanged
arena; allocating more than `memAvailable` (for a state with `len ≤ cap`, which
every reachable state satisfies) fails the same way, leaving length, commitment
and capacity untouched. -/
theorem memAlloc_fail_spec (m : MemArena) (n k : Nat) :
    memAlloc m 0 (2 ^ k) = (m, { ptr := 0, len := 0 }) ∧
      (m.len ≤ m.cap → memAvailable m < n →
        memAlloc m n (2 ^ k) = (m, { ptr := 0, len := 0 })) := by
  constructor
  · simp only [memAlloc]
    rw [if_pos (Or.inr trivial)]
  · intro hcap hav
    have hge : m.base + m.len ≤ memAlignForward (m.base + m.len) (2 ^ k) :=
      memAlignForward_ge _ (pow_pos (by norm_num) k)
    simp only [memAvailable] at hav
    simp only [memAlloc]
    rw [if_pos (Or.inl (by omega))]

/-- C5 (witness): asking the sample arena (90 bytes available) for 1000 bytes
fails with a null block and no state change. -/
theorem memAlloc_fail_spec_witness :
    memAlloc sampleArena 1000 (2 ^ 0) = (sampleArena, { ptr := 0, len := 0 }) :=
  (memAlloc_fail_spec sampleArena 1000 0).2 (by decide) (by decide)

/-- C9 (amended): if the OS cannot reserve the address range, `memReserve`
returns `NULL` (given a size request that passes the size assertions); but if
the OS cannot commit the initial metadata page, the code does not return `NULL`:
`commit` asserts the result (debug) and the release build writes the arena
struct into uncommitted memory — both terminate, modelled as `trap`. -/
theorem memReserve_failure_modes (info : MemArenaInfo) (cok : Bool)
    (hsz : ¬(info.total_size = 0 ∧ info.available_size = 0)) :
    memReserve info none cok = ReserveResult.null ∧
      ∀ b : Nat, memReserve info (some b) false = ReserveResult.trap := by
  constructor
  · simp only [memReserve]
    rw [if_neg hsz]
  · intro b
    simp only [memReserve]
    rw [if_neg hsz]
    rfl

/-- C9 (counterexample): with the OS reservation succeeding and the metadata
commit failing, `memReserve` does not return the null handle the claim
describes (it traps instead of failing gracefully). -/
theorem memReserve_commit_fail_not_null :
    memReserve { total_size := 2 ^ 30, available_size := 0, noDecommit := false }
        (some 65536) false ≠ ReserveResult.null := by
  intro h
  exact ReserveResult.noConfusion h

/-- C9 (witness): a failed OS reservation for a 1 GiB request yields the null
handle. -/
theorem memReserve_failure_modes_witness :
    memReserve { total_size := 2 ^ 30, available_size := 0, noDecommit := false }
        none true = ReserveResult.null :=
  (memReserve_failure_modes
    { total_size := 2 ^ 30, available_size := 0, noDecommit := false } true
    (by decide)).1

/-- C10: for a block with a null pointer (e.g. one already nulled by a
successful free, or by a resize to zero), both `memFree` and `memResize` return
`false` and leave the arena (length, commitment, capacity, contents) and the
block unchanged. -/
theorem null_block_ops_noop (m : MemArena) (blen new_len : Nat) :
    memFree m { ptr := 0, len := blen } = (false, m, { ptr := 0, len := blen }) ∧
      memResize m { ptr := 0, len := blen } new_len =
        (false, m, { ptr := 0, len := blen }) := by
  have hl : lastAlloc m { ptr := 0, len := blen } = false := by
    simp [lastAlloc]
  constructor
  · simp [memFree, hl]
  · simp [memResize, hl]

end Mem

namespace BufH

@[simp]
theorem memCommit_len (m : Arena) : (memCommit m).len = m.len := by
  simp only [memCommit]
  split_ifs <;> rfl

@[simp]
theorem memCommit_cap (m : Arena) : (memCommit m).cap = m.cap := by
  simp only [memCommit]
  split_ifs <;> rfl

@[simp]
theorem memCommit_data (m : Arena) : (memCommit m).data = m.data := by
  simp only [memCommit]
  split_ifs <;> rfl

@[simp]
theorem writeCell_len (m : Arena) (c v : Nat) : (writeCell m c v).len = m.len := rfl

@[simp]
theorem writeCell_cap (m : Arena) (c v : Nat) : (writeCell m c v).cap = m.cap := rfl

@[simp]
theorem writeCell_data_self (m : Arena) (c v : Nat) : (writeCell m c v).data c = v := by
  simp [writeCell]

theorem writeCell_data_other (m : Arena) (c v i : Nat) (h : i ≠ c) :
    (writeCell m c v).data i = m.data i := by
  simp [writeCell, h]

theorem ceilPowerOf2_one : ceilPowerOf2 1 = 1 := by decide

theorem item_align_four :
    (if 4 > MEM_ALIGN_MAX then MEM_ALIGN_MAX else ceilPowerOf2 4) = 4 := by decide

/-- The or-shift cascade doubles each power of two when asked for one more
element: `ceilPowerOf2 (2 ^ j + 1) = 2 ^ (j + 1)` for every exponent occurring
on a 64-bit machine. -/
theorem ceilPowerOf2_two_pow_succ : ∀ j, j < 63 → ceilPowerOf2 (2 ^ j + 1) = 2 ^ (j + 1) := by
  decide

/-- `memBufRealloc` when the requested capacity is already covered: a no-op. -/
theorem memBufRealloc_covered (b : Buf) (req : Nat) (m : Arena) (hle : req ≤ b.cap) :
    memBufRealloc b req m = (true, b, m) := by
  simp only [memBufRealloc]
  rw [if_pos hle]

/-- `memBufRealloc` for a null buffer pointer with enough arena space: a fresh
block is carved at the aligned end of the arena. -/
theorem memBufRealloc_fresh (b : Buf) (req : Nat) (m : Arena)
    (hptr : b.ptr = none) (hreq : ¬ req ≤ b.cap)
    (hfit : memAlignForward m.len 4 + ceilPowerOf2 req * 4 ≤ m.cap) :
    memBufRealloc b req m =
      (true,
        { ptr := some (memAlignForward m.len 4), len := b.len, cap := ceilPowerOf2 req },
        memCommit { m with len := memAlignForward m.len 4 + ceilPowerOf2 req * 4 }) := by
  simp only [memBufRealloc, item_align_four]
  rw [if_neg hreq, hptr]
  simp only [memReallocEx, isLastAlloc]
  rw [if_neg Bool.false_ne_true, if_pos (by omega : memAlignForward m.len 4 ≤ m.cap ∧
    ceilPowerOf2 req * 4 ≤ m.cap - memAlignForward m.len 4)]

/-- `memBufRealloc` growing the arena's last allocation in place. -/
theorem memBufRealloc_grow (b : Buf) (req : Nat) (m : Arena) (off : Nat)
    (hptr : b.ptr = some off) (hreq : ¬ req ≤ b.cap)
    (hlast : m.len = off + b.cap * 4)
    (hlt : b.cap * 4 < ceilPowerOf2 req * 4)
    (hfit : ceilPowerOf2 req * 4 - b.cap * 4 ≤ m.cap - m.len) :
    memBufRealloc b req m =
      (true, { ptr := some off, len := b.len, cap := ceilPowerOf2 req },
        memCommit { m with len := m.len + (ceilPowerOf2 req * 4 - b.cap * 4) }) := by
  simp only [memBufRealloc, item_align_four]
  rw [if_neg hreq, hptr]
  simp only [memReallocEx, isLastAlloc]
  rw [if_pos (by simp [hlast] : (m.len == off + b.cap * 4) = true)]
  rw [if_neg (by omega : ¬ ceilPowerOf2 req * 4 ≤ b.cap * 4), if_pos hfit]

/-- `bufPush` with spare capacity: no reallocation, write at index `len`. -/
theorem bufPush_covered (b : Buf) (x : Nat) (m : Arena) (off : Nat)
    (hptr : b.ptr = some off) (hle : b.len + 1 ≤ b.cap) :
    bufPush b x m = (true, { b with len := b.len + 1 }, writeCell m (off / 4 + b.len) x) := by
  obtain ⟨bp, bl, bc⟩ := b
  dsimp only at hptr hle
  subst hptr
  simp only [bufPush]
  rw [memBufRealloc_covered _ _ m hle]

end BufH

namespace BufH

/-- Invariant of the push loop: after pushing `ys` onto an initially empty
buffer over arena `a0`, every push has succeeded, the buffer has length
`ys.length`, and — once nonempty — it lives at the 4-aligned end `off0` of the
original arena, its capacity is a power of two between `ys.length` and
`2 * ys.length`, it is the arena's last allocation, and its cells hold exactly
the pushed items. -/
def PushInv (a0 : Arena) (ys : List Nat) (s : Bool × Buf × Arena) : Prop :=
  s.1 = true ∧ s.2.1.len = ys.length ∧ s.2.2.cap = a0.cap ∧
    (ys = [] → s.2.1 = { ptr := none, len := 0, cap := 0 } ∧ s.2.2 = a0) ∧
    (ys ≠ [] →
      s.2.1.ptr = some (memAlignForward a0.len 4) ∧
      (∃ j : Nat, s.2.1.cap = 2 ^ j) ∧
      ys.length ≤ s.2.1.cap ∧ s.2.1.cap ≤ 2 * ys.length ∧
      s.2.2.len = memAlignForward a0.len 4 + 4 * s.2.1.cap ∧
      ∀ i : Fin ys.length,
        s.2.2.data (memAlignForward a0.len 4 / 4 + i.1) = ys.get i)

theorem pushStep_inv (a0 : Arena) (N : Nat) (ys : List Nat) (x : Nat)
    (s : Bool × Buf × Arena)
    (hroom : memAlignForward a0.len 4 + 8 * N ≤ a0.cap)
    (hbig : a0.cap ≤ 2 ^ 63)
    (hN : ys.length < N)
    (hs : PushInv a0 ys s) :
    PushInv a0 (ys ++ [x]) (pushStep s x) := by
  obtain ⟨ok, b, m⟩ := s
  obtain ⟨hok, hlen, hcap, hemp, hne⟩ := hs
  dsimp only at hok hlen hcap hemp hne
  subst hok
  by_cases hy : ys = []
  · subst hy
    obtain ⟨hb, hm⟩ := hemp rfl
    subst hb
    subst m
    have hfit : memAlignForward a0.len 4 + ceilPowerOf2 (0 + 1) * 4 ≤ a0.cap := by
      rw [show (0 + 1 : Nat) = 1 from rfl, ceilPowerOf2_one]
      omega
    have hfr := memBufRealloc_fresh { ptr := none, len := 0, cap := 0 } (0 + 1) a0 rfl
      (by decide) hfit
    simp only [pushStep, bufPush]
    rw [hfr]
    simp only [PushInv]
    refine ⟨rfl, by simp, by simp, by simp, fun _ => ?_⟩
    refine ⟨trivial, ⟨0, by simp [ceilPowerOf2_one]⟩, by simp [ceilPowerOf2_one],
      by simp [ceilPowerOf2_one], by simp [ceilPowerOf2_one], ?_⟩
    intro i
    obtain ⟨i, hi⟩ := i
    have hi0 : i = 0 := by simpa using hi
    subst hi0
    simp
  · obtain ⟨hptr, ⟨j, hj⟩, hge, hle2, hmlen, hdata⟩ := hne hy
    have hk : 0 < ys.length := List.length_pos.mpr hy
    by_cases hfull : b.len + 1 ≤ b.cap
    · have hpgoal := bufPush_covered b x m (memAlignForward a0.len 4) hptr hfull
      simp only [pushStep, hpgoal]
      simp only [PushInv]
      refine ⟨rfl, by simp [hlen], by simp [hcap], by simp, fun _ => ?_⟩
      refine ⟨by simp [hptr], ⟨j, by simpa using hj⟩, by simp; omega, by simp; omega,
        by simp [hmlen], ?_⟩
      intro i
      obtain ⟨i, hi⟩ := i
      simp only [List.length_append, List.length_singleton] at hi
      by_cases hik : i < ys.length
      · rw [writeCell_data_other _ _ _ _ (by omega : memAlignForward a0.len 4 / 4 + i ≠
          memAlignForward a0.len 4 / 4 + b.len)]
        rw [hdata ⟨i, hik⟩]
        exact (List.get_append i hik).symm
      · have hik2 : i = ys.length := by omega
        subst hik2
        rw [hlen, writeCell_data_self]
        exact (by simp : ((ys ++ [x]).get ⟨ys.length, by simpa⟩ = x)).symm
    · have hcapk : b.cap = ys.length := by omega
      have h63 : (2 : Nat) ^ 63 = 9223372036854775808 := by norm_num
      have h60 : (2 : Nat) ^ 60 = 1152921504606846976 := by norm_num
      have hNbound : N ≤ 2 ^ 60 := by omega
      have hjbound : j ≤ 60 := by
        have hle60 : (2 : Nat) ^ j ≤ 2 ^ 60 := by omega
        exact (Nat.pow_le_pow_iff_right (by omega)).1 hle60
      have hceil : ceilPowerOf2 (b.len + 1) = 2 ^ (j + 1) := by
        rw [show b.len + 1 = 2 ^ j + 1 by omega]
        exact ceilPowerOf2_two_pow_succ j (by omega)
      have hpow : (2 : Nat) ^ (j + 1) = 2 ^ j * 2 := by rw [pow_succ]
      have hone : (1 : Nat) ≤ 2 ^ j := Nat.one_le_two_pow
      have hgrow := memBufRealloc_grow b (b.len + 1) m (memAlignForward a0.len 4) hptr
        (by omega) (by omega) (by rw [hceil]; omega) (by rw [hceil]; omega)
      simp only [pushStep, bufPush]
      rw [hgrow]
      simp only [PushInv]
      refine ⟨rfl, by simp [hlen], by simp [hcap], by simp, fun _ => ?_⟩
      refine ⟨by simp, ⟨j + 1, by simp [hceil]⟩, by simp [hceil]; omega,
        by simp [hceil]; omega, by simp [hceil, hmlen]; omega, ?_⟩
      intro i
      obtain ⟨i, hi⟩ := i
      simp only [List.length_append, List.length_singleton] at hi
      by_cases hik : i < ys.length
      · rw [writeCell_data_other _ _ _ _ (by omega : memAlignForward a0.len 4 / 4 + i ≠
          memAlignForward a0.len 4 / 4 + b.len)]
        simp only [memCommit_data]
        rw [hdata ⟨i, hik⟩]
        exact (List.get_append i hik).symm
      · have hik2 : i = ys.length := by omega
        subst hik2
        rw [hlen, writeCell_data_self]
        exact (by simp : ((ys ++ [x]).get ⟨ys.length, by simpa⟩ = x)).symm

theorem pushAll_inv (a0 : Arena) (N : Nat)
    (hroom : memAlignForward a0.len 4 + 8 * N ≤ a0.cap)
    (hbig : a0.cap ≤ 2 ^ 63) :
    ∀ (xs ys : List Nat) (s : Bool × Buf × Arena), PushInv a0 ys s →
      ys.length + xs.length ≤ N → PushInv a0 (ys ++ xs) (xs.foldl pushStep s) := by
  intro xs
  induction xs with
  | nil =>
    intro ys s hs _
    simpa using hs
  | cons x xs ih =>
    intro ys s hs hlen
    have hstep := pushStep_inv a0 N ys x s hroom hbig
      (by simp at hlen; omega) hs
    have hrec := ih (ys ++ [x]) (pushStep s x) hstep
      (by simp at hlen ⊢; omega)
    simpa [List.append_assoc] using hrec

end BufH

namespace BufH

/-- C6: pushing any list of items onto an initially empty buffer backed by a
sufficiently large arena: every push succeeds, the final length equals the
number of items pushed, element `i` equals the `i`-th pushed item, and the
final capacity is a power of two that is at least the length (and is zero when
nothing was pushed, since the buffer is then untouched).  The arena is
sufficiently large when it has room for the 4-aligned start plus 8 bytes per
item (the worst-case power-of-two capacity of 4-byte items), and its capacity is
within 2^63 so that the capacity arithmetic stays inside 64 bits.  This covers
the spec's N = 0, 1, 1000 round trips. -/
theorem bufPush_roundtrip (a0 : Arena) (xs : List Nat)
    (hroom : memAlignForward a0.len 4 + 8 * xs.length ≤ a0.cap)
    (hbig : a0.cap ≤ 2 ^ 63) :
    (pushAll { ptr := none, len := 0, cap := 0 } xs a0).1 = true ∧
      (pushAll { ptr := none, len := 0, cap := 0 } xs a0).2.1.len = xs.length ∧
      (xs = [] → (pushAll { ptr := none, len := 0, cap := 0 } xs a0).2.1.cap = 0) ∧
      (xs ≠ [] →
        (∃ j : Nat, (pushAll { ptr := none, len := 0, cap := 0 } xs a0).2.1.cap = 2 ^ j) ∧
        xs.length ≤ (pushAll { ptr := none, len := 0, cap := 0 } xs a0).2.1.cap ∧
        (pushAll { ptr := none, len := 0, cap := 0 } xs a0).2.1.ptr =
          some (memAlignForward a0.len 4) ∧
        ∀ i : Fin xs.length,
          (pushAll { ptr := none, len := 0, cap := 0 } xs a0).2.2.data
            (memAlignForward a0.len 4 / 4 + i.1) = xs.get i) := by
  have h0 : PushInv a0 [] (true, { ptr := none, len := 0, cap := 0 }, a0) :=
    ⟨rfl, rfl, rfl, fun _ => ⟨rfl, rfl⟩, fun h => absurd rfl h⟩
  have hinv := pushAll_inv a0 xs.length hroom hbig xs []
    (true, { ptr := none, len := 0, cap := 0 }, a0) h0 (by simp)
  simp only [List.nil_append] at hinv
  obtain ⟨hok, hlen, hcap, hemp, hne⟩ := hinv
  simp only [pushAll]
  refine ⟨hok, hlen, ?_, ?_⟩
  · intro h
    rw [(hemp h).1]
  · intro h
    obtain ⟨hptr, hj, hge, _, _, hdata⟩ := hne h
    exact ⟨hj, hge, hptr, hdata⟩

/-- C6 (witness): pushing the single item 42 onto an empty buffer over a fresh
4096-byte arena succeeds. -/
theorem bufPush_roundtrip_witness :
    (pushAll { ptr := none, len := 0, cap := 0 } [42]
      { len := 0, cap := 4096, commit := 0, data := fun _ => 0 }).1 = true :=
  (bufPush_roundtrip { len := 0, cap := 4096, commit := 0, data := fun _ => 0 } [42]
    (by decide) (by decide)).1

/-- C7 (code bug): `memBufInsert` moves `len + k` elements instead of `len - k`
(the source computes the move count as `++(buf)->len - 1 + (at)`, adding the
position instead of subtracting it), so a successful insert writes past the end
of the buffer's block.  Concretely: a buffer of 2 elements with capacity 4
(cells 0..3, a 16-byte block that is the arena's last allocation); inserting at
position k = 2 should shift nothing, but the code moves 4 cells, overwriting
cell 4 — bytes [16, 20), outside the block and past the arena's end of
allocations — with the stale value 13.  The insert reports success and the
cells inside the buffer do end up as the claim describes; the out-of-bounds
write is the divergence, and for large page-crossing buffers it runs past the
committed region and faults. -/
theorem memBufInsert_writes_past_block :
    (let a0 : Arena :=
      { len := 16, cap := 4096, commit := 4096,
        data := fun i => if i = 0 then 10 else if i = 1 then 11
          else if i = 2 then 12 else if i = 3 then 13 else 0 }
    let r := memBufInsert { ptr := some 0, len := 2, cap := 4 } 7 2 a0
    r.1 = true ∧ r.2.1.len = 3 ∧ a0.data 4 = 0 ∧ r.2.2.data 4 = 13) := by
  decide

/-- C8: `memBufRealloc` is a no-op returning success when the current capacity
already covers the request; and whenever it reports failure (exactly: growth
was needed and the arena reallocation returned null), the buffer's pointer,
length and capacity — and the arena — are unmodified. -/
theorem memBufRealloc_spec (b : Buf) (req : Nat) (m : Arena) :
    (req ≤ b.cap → memBufRealloc b req m = (true, b, m)) ∧
      ((memBufRealloc b req m).1 = false →
        (memBufRealloc b req m).2.1 = b ∧ (memBufRealloc b req m).2.2 = m) := by
  constructor
  · exact memBufRealloc_covered b req m
  · intro hf
    by_cases hle : req ≤ b.cap
    · rw [memBufRealloc_covered b req m hle] at hf
      simp at hf
    · simp only [memBufRealloc, item_align_four] at hf ⊢
      rw [if_neg hle] at hf ⊢
      rcases hres : memReallocEx m b.ptr (b.cap * 4) (ceilPowerOf2 req * 4) 4 with ⟨m1, po⟩
      cases po
      · exact ⟨rfl, rfl⟩
      · rw [hres] at hf
        exact Bool.noConfusion hf

/-- C8 (witness): a request already covered by the capacity is a no-op. -/
theorem memBufRealloc_spec_witness :
    memBufRealloc { ptr := some 0, len := 2, cap := 4 } 3
        { len := 16, cap := 4096, commit := 4096, data := fun _ => 0 } =
      (true, { ptr := some 0, len := 2, cap := 4 },
        { len := 16, cap := 4096, commit := 4096, data := fun _ => 0 }) :=
  (memBufRealloc_spec { ptr := some 0, len := 2, cap := 4 } 3
    { len := 16, cap := 4096, commit := 4096, data := fun _ => 0 }).1 (by decide)

end BufH
